import Mathlib

/-!
Verification development for the skald-go SDK streaming pipeline.

The definitions below are a shallow embedding of the Go source:
- `client.go`: `NewClient`, `doRequest`, `checkResponse`, `StreamedChat`,
  `parseSSEStream`;
- `types.go`: `ChatStreamEvent`, `MemoReference`, `References`, `APIError`.

Go's `encoding/json` behaviour (as exercised by the claims) is embedded by an
executable JSON grammar parser plus decoders mirroring `json.Unmarshal` into
the concrete struct/map types used by the streaming pipeline.
-/

namespace Skald

/-! ### JSON values and parser (embedding of `encoding/json` syntax handling)

`json.Unmarshal` first requires the payload to be a single well-formed JSON
value (whitespace permitted around it, nothing else).  The grammar is embedded
as an executable recursive-descent parser, structural on a fuel counter so that
concrete inputs evaluate inside the kernel.  Numbers keep their lexeme only:
no claim inspects numeric values, merely whether the payload parses.
-/

/-- A parsed JSON value. -/
inductive Json where
  | null
  | bool (b : Bool)
  | num (lexeme : String)
  | str (s : String)
  | arr (elems : List Json)
  | obj (members : List (String × Json))

/-- JSON whitespace per RFC 8259 (what `encoding/json` skips between tokens). -/
def isJsonWs : Char → Bool
  | ' ' | '\t' | '\n' | '\r' => true
  | _ => false

/-- Drop leading JSON whitespace. -/
def dropWs (cs : List Char) : List Char := cs.dropWhile isJsonWs

/-- Numeric value of one hexadecimal digit, if the character is one. -/
def hexDigitVal (c : Char) : Option Nat :=
  if c.isDigit then some (c.toNat - 48)
  else if 'a' ≤ c && c ≤ 'f' then some (c.toNat - 87)
  else if 'A' ≤ c && c ≤ 'F' then some (c.toNat - 55)
  else none

/-- Numeric value of a run of hexadecimal digits (used on the four digits of a
`\uXXXX` escape). -/
def hexRun (ds : List Char) : Option Nat :=
  ds.foldl (fun acc c => acc.bind fun n => (hexDigitVal c).map fun v => n * 16 + v) (some 0)

/-- The single-character JSON string escapes and what they denote. -/
def simpleEscape : Char → Option Char
  | 'n' => some '\n'
  | 't' => some '\t'
  | 'r' => some '\r'
  | '"' => some '"'
  | '\\' => some '\\'
  | '/' => some '/'
  | 'b' => some (Char.ofNat 0x08)
  | 'f' => some (Char.ofNat 0x0c)
  | _ => none

/-- Scan the body of a JSON string after the opening quote, accumulating the
decoded characters in reverse.  Raw control characters are rejected, as
`encoding/json` rejects them.  (Surrogate-pair recombination of `\uXXXX`
escapes is not modelled; no claim exercises it.) -/
def scanString (acc : List Char) : List Char → Option (String × List Char)
  | [] => none
  | c :: rest =>
    if c = '"' then some (String.mk acc.reverse, rest)
    else if c = '\\' then
      match rest with
      | 'u' :: h1 :: h2 :: h3 :: h4 :: tail =>
        match hexRun [h1, h2, h3, h4] with
        | some n => scanString (Char.ofNat n :: acc) tail
        | none => none
      | e :: tail =>
        match simpleEscape e with
        | some ch => scanString (ch :: acc) tail
        | none => none
      | [] => none
    else if c.toNat < 32 then none
    else scanString (c :: acc) rest

/-- Parse a JSON string literal starting after its opening quote. -/
def parseStr (cs : List Char) : Option (String × List Char) := scanString [] cs

/-- Parse a JSON number, returning its lexeme.  Leading zeros are rejected as
in `encoding/json` (`01` is not a valid JSON number). -/
def parseNum (cs : List Char) : Option (String × List Char) :=
  let p := match cs with
    | '-' :: r => (['-'], r)
    | _ => (([] : List Char), cs)
  let ip := p.2.span Char.isDigit
  match ip.1 with
  | [] => none
  | d :: ds =>
    if d = '0' ∧ ds ≠ [] then none
    else
      let fp := match ip.2 with
        | '.' :: r =>
          let f := r.span Char.isDigit
          if f.1 = [] then none else some ('.' :: f.1, f.2)
        | _ => some ([], ip.2)
      match fp with
      | none => none
      | some fr =>
        let ep := match fr.2 with
          | 'e' :: r =>
            let sg := match r with
              | '+' :: r1 => (['e', '+'], r1)
              | '-' :: r1 => (['e', '-'], r1)
              | _ => (['e'], r)
            let e := sg.2.span Char.isDigit
            if e.1 = [] then none else some (sg.1 ++ e.1, e.2)
          | 'E' :: r =>
            let sg := match r with
              | '+' :: r1 => (['E', '+'], r1)
              | '-' :: r1 => (['E', '-'], r1)
              | _ => (['E'], r)
            let e := sg.2.span Char.isDigit
            if e.1 = [] then none else some (sg.1 ++ e.1, e.2)
          | _ => some ([], fr.2)
        match ep with
        | none => none
        | some er => some (String.mk (p.1 ++ ip.1 ++ fr.1 ++ er.1), er.2)

/-- What the fueled parser is asked to produce next: a value, the elements of a
non-empty array, or the members of a non-empty object. -/
inductive PGoal where
  | val
  | elems
  | members

/-- Result of one fueled parse step. -/
inductive PRes where
  | v (j : Json)
  | vs (js : List Json)
  | ms (ps : List (String × Json))

/-- Fueled recursive-descent parser for the JSON grammar.  The goal `.val`
expects a value at the head of the input (no leading whitespace); `.elems` and
`.members` parse the comma-separated interiors of non-empty arrays/objects, so
trailing commas are rejected.  Structural on `fuel`, hence kernel-evaluable. -/
def parseP : Nat → PGoal → List Char → Option (PRes × List Char)
  | 0, _, _ => none
  | fuel + 1, .val, cs =>
    match cs with
    | 'n' :: 'u' :: 'l' :: 'l' :: r => some (.v .null, r)
    | 't' :: 'r' :: 'u' :: 'e' :: r => some (.v (.bool true), r)
    | 'f' :: 'a' :: 'l' :: 's' :: 'e' :: r => some (.v (.bool false), r)
    | '"' :: r =>
      match parseStr r with
      | some sr => some (.v (.str sr.1), sr.2)
      | none => none
    | '[' :: r =>
      match dropWs r with
      | ']' :: r1 => some (.v (.arr []), r1)
      | cs1 =>
        match parseP fuel .elems cs1 with
        | some (.vs js, r1) => some (.v (.arr js), r1)
        | _ => none
    | '{' :: r =>
      match dropWs r with
      | '}' :: r1 => some (.v (.obj []), r1)
      | cs1 =>
        match parseP fuel .members cs1 with
        | some (.ms ps, r1) => some (.v (.obj ps), r1)
        | _ => none
    | c :: rest =>
      if c == '-' || c.isDigit then
        match parseNum (c :: rest) with
        | some nr => some (.v (.num nr.1), nr.2)
        | none => none
      else none
    | [] => none
  | fuel + 1, .elems, cs =>
    match parseP fuel .val cs with
    | some (.v j, r) =>
      (match dropWs r with
        | ',' :: r1 =>
          match parseP fuel .elems (dropWs r1) with
          | some (.vs js, r2) => some (.vs (j :: js), r2)
          | _ => none
        | ']' :: r1 => some (.vs [j], r1)
        | _ => none)
    | _ => none
  | fuel + 1, .members, cs =>
    match cs with
    | '"' :: r =>
      match parseStr r with
      | some kr =>
        (match dropWs kr.2 with
          | ':' :: r1 =>
            match parseP fuel .val (dropWs r1) with
            | some (.v j, r2) =>
              (match dropWs r2 with
                | ',' :: r3 =>
                  match parseP fuel .members (dropWs r3) with
                  | some (.ms ps, r4) => some (.ms ((kr.1, j) :: ps), r4)
                  | _ => none
                | '}' :: r3 => some (.ms [(kr.1, j)], r3)
                | _ => none)
            | _ => none
          | _ => none)
      | none => none
    | _ => none

/-- Parse a complete JSON document: one value, optionally surrounded by
whitespace, with no trailing content — exactly what `json.Unmarshal` requires
of its input before any struct decoding happens. -/
def parseJson (s : String) : Option Json :=
  let cs := dropWs s.data
  match parseP (s.data.length + 1) .val cs with
  | some (.v j, rest) => if dropWs rest = [] then some j else none
  | _ => none

/-! ### Typed data model (embedding of `types.go`) -/

/-- Embeds `MemoReference` (types.go:94-97): a reference to a memo in chat
responses, with JSON fields `memo_uuid` and `memo_title`. -/
structure MemoReference where
  memoUUID : String
  memoTitle : String
deriving DecidableEq, Repr

/-- Embeds `References = map[string]MemoReference` (types.go:100).  A Go map is
modelled as an association list whose keys are kept duplicate-free by
`mapInsert`; lookup order is irrelevant under that invariant. -/
abbrev References := List (String × MemoReference)

/-- Embeds `ChatStreamEvent` (types.go:253-258).  `references` is `none` when
the Go map field is `nil` and `some m` when it is a (possibly empty) map. -/
structure ChatStreamEvent where
  type : String
  content : Option String
  chatID : String
  references : Option References
deriving DecidableEq, Repr

/-- Go map assignment `m[k] = v`: overwrite the binding of `k` if present,
otherwise append a fresh binding.  Preserves key-uniqueness. -/
def mapInsert (k : String) (v : α) : List (String × α) → List (String × α)
  | [] => [(k, v)]
  | p :: rest => if p.1 = k then (k, v) :: rest else p :: mapInsert k v rest

/-- First-match association lookup. -/
def alookup (k : String) : List (String × α) → Option α
  | [] => none
  | p :: rest => if p.1 = k then some p.2 else alookup k rest

/-! ### `json.Unmarshal` into the streaming structs

Mirrors Go decoding semantics on the relevant types: `null` into a struct or
string is a no-op, `null` into a pointer (`*string`) or map sets it to `nil`,
a type-mismatched field value is an error, unknown object keys are ignored,
and a repeated key re-assigns the field in document order.

Field-name matching follows `json.Unmarshal`: an object key selects the field
whose json tag it matches exactly, or failing that matches case-insensitively
(`encoding/json`'s folded-name comparison; ASCII case folding).  Because the
tags of the structs involved (`type`, `content`, `chat_id`, `references`;
`memo_uuid`, `memo_title`) are pairwise distinct even case-insensitively, an
exact match and a fold match can never select different fields, so a single
case-insensitive comparison per tag decides the field exactly as Go does. -/

/-- ASCII lower-casing, as `encoding/json` folds field names. -/
def asciiLower (c : Char) : Char :=
  if 'A' ≤ c && c ≤ 'Z' then Char.ofNat (c.toNat + 32) else c

/-- Case-insensitive (folded) name comparison used for field matching. -/
def foldEq (a b : String) : Bool :=
  a.data.map asciiLower == b.data.map asciiLower

/-- Decode one JSON value as a `MemoReference`, per `json.Unmarshal`. -/
def decodeMemoReference : Json → Option MemoReference
  | .null => some ⟨"", ""⟩
  | .obj ps =>
    ps.foldl
      (fun acc kv =>
        acc.bind fun r =>
          if foldEq kv.1 "memo_uuid" then
            match kv.2 with
            | .str s => some { r with memoUUID := s }
            | .null => some r
            | _ => none
          else if foldEq kv.1 "memo_title" then
            match kv.2 with
            | .str s => some { r with memoTitle := s }
            | .null => some r
            | _ => none
          else some r)
      (some ⟨"", ""⟩)
  | _ => none

/-- Decode a JSON object's members into a `References` map, merging into an
existing map as Go does when a map field is assigned repeatedly. -/
def decodeRefsInto (prev : References) (rs : List (String × Json)) : Option References :=
  rs.foldl
    (fun acc kv => acc.bind fun m => (decodeMemoReference kv.2).map fun r => mapInsert kv.1 r m)
    (some prev)

/-- Decode a top-level JSON value into a `References` map (the standalone
unmarshal used for a `references` payload). -/
def decodeReferences : Json → Option References
  | .null => some []
  | .obj rs => decodeRefsInto [] rs
  | _ => none

/-- Assign one object member to its `ChatStreamEvent` field (by json tag). -/
def setEventField (e : ChatStreamEvent) (k : String) (v : Json) : Option ChatStreamEvent :=
  if foldEq k "type" then
    match v with
    | .str s => some { e with type := s }
    | .null => some e
    | _ => none
  else if foldEq k "content" then
    match v with
    | .str s => some { e with content := some s }
    | .null => some { e with content := none }
    | _ => none
  else if foldEq k "chat_id" then
    match v with
    | .str s => some { e with chatID := s }
    | .null => some e
    | _ => none
  else if foldEq k "references" then
    match v with
    | .obj rs => (decodeRefsInto (e.references.getD []) rs).map
        fun m => { e with references := some m }
    | .null => some { e with references := none }
    | _ => none
  else some e

/-- The zero value of `ChatStreamEvent` (what `var event ChatStreamEvent`
starts from in `parseSSEStream`). -/
def zeroEvent : ChatStreamEvent := ⟨"", none, "", none⟩

/-- Decode one JSON value as a `ChatStreamEvent`, per `json.Unmarshal`. -/
def decodeChatStreamEvent : Json → Option ChatStreamEvent
  | .null => some zeroEvent
  | .obj ps => ps.foldl (fun acc kv => acc.bind fun e => setEventField e kv.1 kv.2) (some zeroEvent)
  | _ => none

/-- `json.Unmarshal([]byte(payload), &event)` from client.go:464: syntax
parsing followed by struct decoding; `none` is any unmarshal error. -/
def decodeEventPayload (payload : String) : Option ChatStreamEvent :=
  (parseJson payload).bind decodeChatStreamEvent

/-! ### The SSE line loop (embedding of `parseSSEStream`, client.go:450-483) -/

/-- Go errors that the streaming path can deliver on the error channel.
`fmtError` is a plain `fmt.Errorf` value; `apiError` is the structured
`*APIError` of types.go:289-297 (defined by the source but, as proved below,
never produced by `checkResponse`). -/
inductive GoErr where
  | fmtError (msg : String)
  | apiError (statusCode : Nat) (message : String)
deriving DecidableEq, Repr

/-- `strings.HasPrefix(l, p)`, on the character lists so that concrete
instances evaluate inside the kernel. -/
def hasPrefix (p l : String) : Bool := p.data.isPrefixOf l.data

/-- `strings.CutPrefix(line, prefix)` (client.go:462). -/
def cutPrefix (p l : String) : Option String :=
  if hasPrefix p l then some (String.mk (l.data.drop p.data.length)) else none

/-- The effect of one scanned line in the loop body of `parseSSEStream`:
`none` when the line is skipped (empty line, `:`-prefixed line, a line without
the `data: ` prefix, or a payload `json.Unmarshal` rejects), `some ev` when a
decoded event is sent on the event channel. -/
def lineEvent (line : String) : Option ChatStreamEvent :=
  if line = "" || hasPrefix ":" line then none
  else
    match cutPrefix "data: " line with
    | some payload => decodeEventPayload payload
    | none => none

/-- The scanner loop of `parseSSEStream` (client.go:453-476) over the scanned
lines: returns the events sent on the event channel in order, and whether the
loop returned early because a `done` event was published. -/
def processLines : List String → List ChatStreamEvent × Bool
  | [] => ([], false)
  | line :: rest =>
    match lineEvent line with
    | none => processLines rest
    | some event =>
      if event.type = "done" then ([event], true)
      else
        let r := processLines rest
        (event :: r.1, r.2)

/-- The response body as the Stream Reader sees it: the lines the
`bufio.Scanner` delivers, then either end-of-stream (`readErr = none`) or a
read failure that `scanner.Err()` reports (`readErr = some e`).  Lines are
assumed to fit the scanner's token limit. -/
structure SSEBody where
  lines : List String
  readErr : Option String
deriving DecidableEq, Repr

/-- Embeds `parseSSEStream` (client.go:450-483): the events published, and the
error the function returns (`none` on normal termination; note the early
`return nil` on a `done` event skips the `scanner.Err()` check). -/
def parseSSEStream (body : SSEBody) : List ChatStreamEvent × Option GoErr :=
  let r := processLines body.lines
  if r.2 then (r.1, none)
  else (r.1, body.readErr.map fun e => GoErr.fmtError ("error reading stream: " ++ e))

/-! ### The streaming orchestrator (embedding of `StreamedChat` and
`checkResponse`, client.go:377-417 and 440-447) -/

/-- `bufio.ScanLines` strips one trailing `\r` from each line. -/
def dropCR (s : String) : String :=
  match s.data.reverse with
  | '\r' :: rest => String.mk rest.reverse
  | _ => s

/-- Split body bytes into scanner lines: split at `\n`, strip one trailing
`\r` per line, no empty final token after a trailing newline. -/
def splitLinesAux (cur : List Char) : List Char → List String
  | [] => if cur = [] then [] else [dropCR (String.mk cur.reverse)]
  | '\n' :: rest => dropCR (String.mk cur.reverse) :: splitLinesAux [] rest
  | c :: rest => splitLinesAux (c :: cur) rest

/-- All scanner lines of a byte stream (`bufio.Scanner` with `ScanLines`). -/
def splitLines (raw : String) : List String := splitLinesAux [] raw.data

/-- Embeds `checkResponse` (client.go:440-447): `nil` for a 2xx status,
otherwise a plain `fmt.Errorf` whose message interpolates the status code and
the fully read body — not an `APIError` value. -/
def checkResponse (status : Nat) (bodyBytes : String) : Option GoErr :=
  if 200 ≤ status ∧ status < 300 then none
  else some (.fmtError ("skald API error (" ++ toString status ++ "): " ++ bodyBytes))

/-- `(*APIError).Error()` (types.go:295-297), for comparison with the message
`checkResponse` builds. -/
def APIError.errorText (statusCode : Nat) (message : String) : String :=
  "skald API error (" ++ toString statusCode ++ "): " ++ message

/-- The outcome of the `doRequest` call inside `StreamedChat`: either the
request itself failed, or a response arrived with a status code and a body
(raw bytes plus an optional read error after them). -/
inductive HTTPOutcome where
  | reqFailure (msg : String)
  | response (status : Nat) (rawBody : String) (readErr : Option String)

/-- What a caller can observe from the channel pair `StreamedChat` returns:
the events received from the event channel and the errors received from the
error channel, each in order, both channels being closed afterwards by the
goroutine's deferred closes (client.go:382-383). -/
structure StreamOutcome where
  events : List ChatStreamEvent
  errors : List GoErr
deriving DecidableEq, Repr

/-- Embeds the goroutine body of `StreamedChat` (client.go:381-414) from the
`doRequest` call onward, for a caller that drains both channels: a request
failure or a non-2xx status delivers one error and no events; on a 2xx status
the SSE parse runs and its error, if any, is delivered after the events. -/
def StreamedChat : HTTPOutcome → StreamOutcome
  | .reqFailure msg => ⟨[], [.fmtError msg]⟩
  | .response status raw readErr =>
    match checkResponse status raw with
    | some e => ⟨[], [e]⟩
    | none =>
      let r := parseSSEStream ⟨splitLines raw, readErr⟩
      ⟨r.1, r.2.toList⟩

/-! ### Client construction and request URLs (embedding of `NewClient`,
client.go:26-37, and `doRequest`, client.go:420-437) -/

/-- The client state relevant to URL construction (client.go:19-23). -/
structure ClientModel where
  apiKey : String
  baseURL : String
deriving DecidableEq, Repr

/-- The default base URL (client.go:27). -/
def defaultBaseURL : String := "https://api.useskald.com"

/-- `strings.TrimRight(s, "/")`: remove every trailing `/`. -/
def trimTrailingSlashes (s : String) : String :=
  String.mk (s.data.reverse.dropWhile (fun c => c = '/')).reverse

/-- Embeds `NewClient` (client.go:26-37); the variadic `baseURL` parameter is
the list of optional arguments, of which only the first is consulted. -/
def NewClient (apiKey : String) (baseURL : List String) : ClientModel :=
  let url :=
    match baseURL with
    | u :: _ => if u ≠ "" then trimTrailingSlashes u else defaultBaseURL
    | [] => defaultBaseURL
  ⟨apiKey, url⟩

/-- `url.Values.Encode()` as used by `doRequest`; its exact percent-encoding
is irrelevant to every claim, only whether the parameter list is empty. -/
def encodeQuery (params : List (String × String)) : String :=
  String.intercalate "&" (params.map fun p => p.1 ++ "=" ++ p.2)

/-- The URL `doRequest` builds (client.go:421-424):
`c.baseURL + path`, plus `"?" + params.Encode()` when params are non-empty. -/
def requestURL (c : ClientModel) (path : String) (params : List (String × String)) : String :=
  c.baseURL ++ path ++ (if params.isEmpty then "" else "?" ++ encodeQuery params)

/-! ### Concurrency model of the producer goroutine

`StreamedChat` (client.go:377-417) spawns one goroutine that runs
`parseSSEStream`; the caller drains the returned channels.  The goroutine is
embedded as a small-step transition system.  `ProducerStep` contains exactly
the transitions the goroutine can take on its own; `ConsumerStep` contains
the transitions that need the caller (receiving from the event channel) or
the environment (cancelling the context).

The two channels are created at client.go:378-379:
`make(chan ChatStreamEvent)` (unbuffered) and `make(chan error, 1)`.
The send at client.go:469 is a bare `eventChan <- event` — there is no
`select` on `ctx.Done()` — so from a `sending` state the only transition is a
consumer receive.  Cancellation does abort a blocked *body read* (the
`net/http` response body honours the request context), which is the
`scanCancelled` rule.
-/

/-- Capacity of the event channel: `make(chan ChatStreamEvent)`, client.go:378. -/
def eventChanCapacity : Nat := 0

/-- Capacity of the error channel: `make(chan error, 1)`, client.go:379. -/
def errChanCapacity : Nat := 1

/-- Program counter of the goroutine inside `parseSSEStream`. -/
inductive PState where
  | reading (rest : List String)
  | sending (ev : ChatStreamEvent) (rest : List String)
  | finished (res : Option GoErr)
deriving DecidableEq, Repr

/-- Global state: the goroutine's position, the events sitting in the event
channel's buffer, and whether the caller's context has been cancelled. -/
structure GState where
  prog : PState
  sentBuf : List ChatStreamEvent
  cancelled : Bool
deriving DecidableEq, Repr

/-- Where the goroutine goes after the send at client.go:469 completes: the
`done` check at client.go:472 either returns or loops to the next scan. -/
def afterSend (ev : ChatStreamEvent) (rest : List String) : PState :=
  if ev.type = "done" then .finished none else .reading rest

/-- The steps the producer goroutine can take without the consumer. -/
inductive ProducerStep : GState → GState → Prop
  | scanSkip {l : String} {rest buf c} (h : lineEvent l = none) :
      ProducerStep ⟨.reading (l :: rest), buf, c⟩ ⟨.reading rest, buf, c⟩
  | scanEvent {l : String} {rest ev buf c} (h : lineEvent l = some ev) :
      ProducerStep ⟨.reading (l :: rest), buf, c⟩ ⟨.sending ev rest, buf, c⟩
  | scanEOF {buf c} :
      ProducerStep ⟨.reading [], buf, c⟩ ⟨.finished none, buf, c⟩
  | scanCancelled {rest buf} :
      ProducerStep ⟨.reading rest, buf, true⟩
        ⟨.finished (some (.fmtError "error reading stream: context canceled")), buf, true⟩
  | sendBuffered {ev rest buf c} (h : buf.length < eventChanCapacity) :
      ProducerStep ⟨.sending ev rest, buf, c⟩ ⟨afterSend ev rest, buf ++ [ev], c⟩

/-- The steps that require the consumer or the environment: receiving a
buffered event, the rendezvous receive that completes an unbuffered send, and
cancelling the context. -/
inductive ConsumerStep : GState → GState → Prop
  | recvBuffered {p ev buf c} :
      ConsumerStep ⟨p, ev :: buf, c⟩ ⟨p, buf, c⟩
  | recvRendezvous {ev rest c} :
      ConsumerStep ⟨.sending ev rest, [], c⟩ ⟨afterSend ev rest, [], c⟩
  | cancel {p buf c} :
      ConsumerStep ⟨p, buf, c⟩ ⟨p, buf, true⟩

/-- Whether the producer goroutine has any step of its own available. -/
def producerEnabled (st : GState) : Bool :=
  match st.prog with
  | .reading _ => true
  | .sending _ _ => decide (st.sentBuf.length < eventChanCapacity)
  | .finished _ => false

/-! ### Derived event shapes and references encoding -/

/-- The event a well-formed `data: ` line carrying
`\x7b"type":"token","content":X\x7d` decodes to. -/
def tokenEvent (x : String) : ChatStreamEvent := ⟨"token", some x, "", none⟩

/-- The event the line `data: \x7b"type":"done"\x7d` decodes to. -/
def doneEvent : ChatStreamEvent := ⟨"done", none, "", none⟩

/-- The value the `type` field of a decoded event ends up with: the last
string bound to a key matching `type` (case-insensitively, as `json.Unmarshal`
matches field names) in the payload object, starting from the zero value
`""`.  (A `null` binding is a no-op, and any other shape makes the whole
unmarshal fail, so the catch-all branch is never reached on payloads that
decode successfully.) -/
def typeStep (acc : String) (k : String) (v : Json) : String :=
  if foldEq k "type" then
    match v with
    | .str s => s
    | _ => acc
  else acc

def typeFold (ps : List (String × Json)) : String :=
  ps.foldl (fun acc kv => typeStep acc kv.1 kv.2) ""

/-- `json.Marshal` of one `MemoReference`: struct fields in declaration
order. -/
def encodeMemoReference (r : MemoReference) : Json :=
  .obj [("memo_uuid", .str r.memoUUID), ("memo_title", .str r.memoTitle)]

/-- Insert one binding into a key-sorted association list. -/
def insertSorted (p : String × MemoReference) :
    List (String × MemoReference) → List (String × MemoReference)
  | [] => [p]
  | q :: rest => if p.1 ≤ q.1 then p :: q :: rest else q :: insertSorted p rest

/-- Sort a references map by key, as `json.Marshal` orders map keys. -/
def sortByKey (l : List (String × MemoReference)) : List (String × MemoReference) :=
  l.foldr insertSorted []

/-- `json.Marshal` of a `References` map: a JSON object whose members are the
map's bindings in sorted key order. -/
def encodeReferences (m : References) : Json :=
  .obj ((sortByKey m).map fun p => (p.1, encodeMemoReference p.2))

/-- The binding a JSON object gives a key when read as a Go map: the last
member with that key wins. -/
def objLookupLast (ps : List (String × Json)) (k : String) : Option Json :=
  alookup k ps.reverse

/-- The mapping a references payload denotes: citation number to decoded
`MemoReference` record. -/
def refLookup (j : Json) (k : String) : Option MemoReference :=
  match j with
  | .obj ps => (objLookupLast ps k).bind decodeMemoReference
  | _ => none

/-- The keys of a JSON object payload. -/
def objKeys (j : Json) : List String :=
  match j with
  | .obj ps => ps.map Prod.fst
  | _ => []

/-- `strings.HasSuffix(l, p)`, on the character lists. -/
def hasSuffix (p l : String) : Bool := p.data.isSuffixOf l.data

/-! ### Lemmas about the scanner loop -/

theorem processLines_cons (l : String) (rest : List String) :
    processLines (l :: rest) =
      match lineEvent l with
      | none => processLines rest
      | some event =>
        if event.type = "done" then ([event], true)
        else (event :: (processLines rest).1, (processLines rest).2) := rfl

theorem processLines_skip {l : String} {rest : List String} (h : lineEvent l = none) :
    processLines (l :: rest) = processLines rest := by
  rw [processLines_cons, h]

theorem processLines_event {l : String} {rest : List String} {ev : ChatStreamEvent}
    (h : lineEvent l = some ev) (hnd : ev.type ≠ "done") :
    processLines (l :: rest) = (ev :: (processLines rest).1, (processLines rest).2) := by
  rw [processLines_cons, h]
  simp [hnd]

theorem processLines_done {l : String} {rest : List String} {ev : ChatStreamEvent}
    (h : lineEvent l = some ev) (hd : ev.type = "done") :
    processLines (l :: rest) = ([ev], true) := by
  rw [processLines_cons, h]
  simp [hd]

theorem processLines_all_skip {ls : List String} (h : ∀ l ∈ ls, lineEvent l = none) :
    processLines ls = ([], false) := by
  induction ls with
  | nil => rfl
  | cons l rest ih =>
    rw [processLines_skip (h l (List.mem_cons_self l rest))]
    exact ih fun x hx => h x (List.mem_cons_of_mem l hx)

theorem processLines_append_tokens {tokLines xs : List String} {suffix : List String}
    (h : List.Forall₂ (fun l x => lineEvent l = some (tokenEvent x)) tokLines xs) :
    processLines (tokLines ++ suffix) =
      (xs.map tokenEvent ++ (processLines suffix).1, (processLines suffix).2) := by
  induction h with
  | nil => simp
  | cons hl htl ih =>
    rw [List.cons_append, processLines_event hl (by simp [tokenEvent]), ih]
    simp

theorem processLines_remove_skip {bad : String} (h : lineEvent bad = none)
    (pre post : List String) :
    processLines (pre ++ bad :: post) = processLines (pre ++ post) := by
  induction pre with
  | nil => simpa using processLines_skip h
  | cons l pre ih =>
    rw [List.cons_append, List.cons_append, processLines_cons, processLines_cons]
    cases hl : lineEvent l with
    | none => simpa using ih
    | some ev =>
      by_cases hd : ev.type = "done" <;> simp [hd, ih]

theorem processLines_done_stops {pre post : List String} {dl : String} {ev : ChatStreamEvent}
    (hpre : (processLines pre).2 = false)
    (hdl : lineEvent dl = some ev) (hd : ev.type = "done") :
    processLines (pre ++ dl :: post) = ((processLines pre).1 ++ [ev], true) := by
  induction pre with
  | nil =>
    rw [List.nil_append, processLines_done hdl hd]
    simp [processLines]
  | cons l pre ih =>
    cases hl : lineEvent l with
    | none =>
      rw [processLines_skip hl] at hpre ⊢
      rw [List.cons_append, processLines_skip hl]
      exact ih hpre
    | some e =>
      by_cases hd2 : e.type = "done"
      · rw [processLines_done hl hd2] at hpre
        simp at hpre
      · rw [processLines_event hl hd2] at hpre ⊢
        rw [List.cons_append, processLines_event hl hd2, ih hpre]
        simp

/-- `checkResponse` accepts a 200 status. -/
theorem checkResponse_200 (raw : String) : checkResponse 200 raw = none := by
  simp [checkResponse]

/-- A line with the `data: ` prefix starts with `'d'`. -/
theorem hasPrefix_data_shape {bad : String} (hp : hasPrefix "data: " bad = true) :
    ∃ t, bad.data = 'd' :: t := by
  unfold hasPrefix at hp
  cases hb : bad.data with
  | nil =>
    rw [hb] at hp
    exact absurd hp (by decide)
  | cons c t =>
    rw [hb] at hp
    have hpc : ('d' == c && List.isPrefixOf "ata: ".data t) = true := hp
    have hc : 'd' = c := eq_of_beq ((Bool.and_eq_true _ _).mp hpc).1
    exact ⟨t, by subst hc; rfl⟩

/-- On a line `strings.CutPrefix` strips `data: ` from, the loop body's effect
is exactly the result of unmarshalling the remainder: such a line is neither
empty nor a comment line. -/
theorem lineEvent_data {bad payload : String} (hcut : cutPrefix "data: " bad = some payload) :
    lineEvent bad = decodeEventPayload payload := by
  have hp : hasPrefix "data: " bad = true := by
    by_cases h : hasPrefix "data: " bad = true
    · exact h
    · rw [cutPrefix, if_neg (by simpa using h)] at hcut
      exact absurd hcut (by simp)
  obtain ⟨t, ht⟩ := hasPrefix_data_shape hp
  have hne : ¬ (bad = "") := by
    intro h
    rw [h] at ht
    exact absurd ht (by simp)
  have hnc : hasPrefix ":" bad = false := by
    unfold hasPrefix
    rw [ht]
    rfl
  simp [lineEvent, hne, hnc, hcut]

/-! ### The claims -/

/-- C1: for every SSE body consisting of well-formed
`data: \x7b"type":"token","content":X\x7d` lines (zero or more, with possibly
different X) followed by a `data: \x7b"type":"done"\x7d` line, the streaming
call emits on the event channel exactly the token events with those contents
in input order, followed by one done event, and delivers nothing on the error
channel. -/
theorem claim1_token_done_stream (raw : String) (tokLines xs : List String) (dl : String)
    (hsplit : splitLines raw = tokLines ++ [dl])
    (htoks : List.Forall₂ (fun l x => lineEvent l = some (tokenEvent x)) tokLines xs)
    (hdone : lineEvent dl = some doneEvent) :
    StreamedChat (.response 200 raw none) = ⟨xs.map tokenEvent ++ [doneEvent], []⟩ := by
  have hp : processLines (tokLines ++ [dl]) = (xs.map tokenEvent ++ [doneEvent], true) := by
    rw [processLines_append_tokens htoks, processLines_done hdone rfl]
  simp [StreamedChat, checkResponse_200, hsplit, parseSSEStream, hp]

/-- Witness for C1: a concrete body with two token lines and a done line. -/
theorem claim1_token_done_stream_witness :
    StreamedChat (.response 200
      "data: \x7b\"type\":\"token\",\"content\":\"Hello\"\x7d\ndata: \x7b\"type\":\"token\",\"content\":\" world\"\x7d\ndata: \x7b\"type\":\"done\"\x7d\n"
      none) =
      ⟨["Hello", " world"].map tokenEvent ++ [doneEvent], []⟩ :=
  claim1_token_done_stream _
    ["data: \x7b\"type\":\"token\",\"content\":\"Hello\"\x7d",
     "data: \x7b\"type\":\"token\",\"content\":\" world\"\x7d"]
    ["Hello", " world"]
    "data: \x7b\"type\":\"done\"\x7d"
    rfl
    (List.Forall₂.cons rfl (List.Forall₂.cons rfl List.Forall₂.nil))
    rfl

/-- C5: a `data: ` line whose payload the unmarshaller rejects, interleaved
anywhere in the body, is skipped silently: the result (events and error alike)
equals that of the same body with the line removed. -/
theorem claim5_malformed_line_skipped (pre post : List String) (bad payload : String)
    (re : Option String)
    (hcut : cutPrefix "data: " bad = some payload)
    (hbad : decodeEventPayload payload = none) :
    parseSSEStream ⟨pre ++ bad :: post, re⟩ = parseSSEStream ⟨pre ++ post, re⟩ := by
  have h : lineEvent bad = none := by rw [lineEvent_data hcut]; exact hbad
  unfold parseSSEStream
  rw [processLines_remove_skip h]

/-- Witness for C5: `data: not-json` between a valid token line and a valid
done line. -/
theorem claim5_malformed_line_skipped_witness :
    parseSSEStream
        ⟨["data: \x7b\"type\":\"token\",\"content\":\"A\"\x7d", "data: not-json",
          "data: \x7b\"type\":\"done\"\x7d"], none⟩ =
      parseSSEStream
        ⟨["data: \x7b\"type\":\"token\",\"content\":\"A\"\x7d",
          "data: \x7b\"type\":\"done\"\x7d"], none⟩ :=
  claim5_malformed_line_skipped
    ["data: \x7b\"type\":\"token\",\"content\":\"A\"\x7d"]
    ["data: \x7b\"type\":\"done\"\x7d"]
    "data: not-json" "not-json" none rfl rfl

/-- C6: a decoded event whose type is the sentinel `done` is still published,
and reading stops immediately afterward: lines after it contribute nothing,
and the return is error-free even if a read error was pending. -/
theorem claim6_done_stops_reading (pre post : List String) (dl : String)
    (ev : ChatStreamEvent) (re : Option String)
    (hpre : (processLines pre).2 = false)
    (hdl : lineEvent dl = some ev) (hd : ev.type = "done") :
    parseSSEStream ⟨pre ++ dl :: post, re⟩ = ((processLines pre).1 ++ [ev], none) := by
  unfold parseSSEStream
  rw [processLines_done_stops hpre hdl hd]
  simp

/-- Witness for C6: a done line followed by a further token line, with a read
error pending after the lines. -/
theorem claim6_done_stops_reading_witness :
    parseSSEStream
        ⟨["data: \x7b\"type\":\"token\",\"content\":\"A\"\x7d",
          "data: \x7b\"type\":\"done\"\x7d",
          "data: \x7b\"type\":\"token\",\"content\":\"after\"\x7d"], some "connection reset"⟩ =
      ((processLines ["data: \x7b\"type\":\"token\",\"content\":\"A\"\x7d"]).1 ++ [doneEvent],
        none) :=
  claim6_done_stops_reading
    ["data: \x7b\"type\":\"token\",\"content\":\"A\"\x7d"]
    ["data: \x7b\"type\":\"token\",\"content\":\"after\"\x7d"]
    "data: \x7b\"type\":\"done\"\x7d" doneEvent (some "connection reset") rfl rfl rfl

/-- C7: end of stream without a done event is normal termination when the
reader reports no error; in particular a body of only empty lines and
`:`-prefixed lines yields zero events and an empty error channel. -/
theorem claim7_eos_without_done_clean :
    (∀ ls : List String, (processLines ls).2 = false →
      (parseSSEStream ⟨ls, none⟩).2 = none) ∧
    (∀ raw : String, (∀ l ∈ splitLines raw, l = "" ∨ hasPrefix ":" l = true) →
      StreamedChat (.response 200 raw none) = ⟨[], []⟩) := by
  constructor
  · intro ls _
    unfold parseSSEStream
    cases h2 : (processLines ls).2 <;> simp [h2]
  · intro raw hall
    have hle : ∀ l ∈ splitLines raw, lineEvent l = none := by
      intro l hl
      rcases hall l hl with h | h <;> simp [lineEvent, h]
    simp [StreamedChat, checkResponse_200, parseSSEStream, processLines_all_skip hle]

/-- Witness for C7: no done seen on a comment-only list, and a concrete body
of a ping line and an empty line. -/
theorem claim7_eos_without_done_clean_witness :
    (parseSSEStream ⟨[": keep-alive"], none⟩).2 = none ∧
    StreamedChat (.response 200 ": ping\n\n" none) = ⟨[], []⟩ :=
  ⟨claim7_eos_without_done_clean.1 [": keep-alive"] rfl,
   claim7_eos_without_done_clean.2 ": ping\n\n" (by decide)⟩

/-- C2 (refuting evaluation): the claim requires a cancelled context to
unblock a producer blocked on sending into the event channel.  In the code the
send at client.go:469 is a bare `eventChan <- event` with no `select` on
`ctx.Done()`: in a `sending` state the producer has no step of its own — the
buffer of the unbuffered channel can never admit the event — even with the
context cancelled, so only a consumer receive can ever unblock it.  The second
conjunct checks the enabledness function is sound for the step relation. -/
theorem claim2_blocked_send_not_cancellable :
    (∀ (ev : ChatStreamEvent) (rest : List String) (buf : List ChatStreamEvent),
      producerEnabled ⟨.sending ev rest, buf, true⟩ = false) ∧
    (∀ st st', ProducerStep st st' → producerEnabled st = true) := by
  constructor
  · intro ev rest buf
    simp [producerEnabled, eventChanCapacity]
  · intro st st' h
    cases h with
    | scanSkip h => rfl
    | scanEvent h => rfl
    | scanEOF => rfl
    | scanCancelled => rfl
    | sendBuffered h => exact decide_eq_true h

/-- Witness for C2: a concrete blocked-and-cancelled state is stuck, and a
concrete producer step witnesses soundness of the enabledness function. -/
theorem claim2_blocked_send_not_cancellable_witness :
    producerEnabled ⟨.sending doneEvent [], [], true⟩ = false ∧
    producerEnabled ⟨.reading [], [], false⟩ = true :=
  ⟨claim2_blocked_send_not_cancellable.1 doneEvent [] [],
   claim2_blocked_send_not_cancellable.2 ⟨.reading [], [], false⟩ ⟨.finished none, [], false⟩
     ProducerStep.scanEOF⟩

/-- C8: the channels `StreamedChat` creates have fixed capacities — the error
channel is buffered to depth exactly 1 and the event channel is unbuffered —
so a producer in a `sending` state can never proceed on its own: at most one
decoded event is in flight and a stalled consumer blocks further line
reading. -/
theorem claim8_channel_capacities :
    eventChanCapacity = 0 ∧ errChanCapacity = 1 ∧
    (∀ (ev : ChatStreamEvent) (rest : List String) (buf : List ChatStreamEvent) (c : Bool),
      producerEnabled ⟨.sending ev rest, buf, c⟩ = false) := by
  refine ⟨rfl, rfl, ?_⟩
  intro ev rest buf c
  simp [producerEnabled, eventChanCapacity]

/-- C4 (refuting evaluation): a non-2xx response yields no events and exactly
one error whose message interpolates the status code and the fully read body —
but that error is a plain `fmt.Errorf` value, not the structured `APIError` of
types.go: every error the call delivers is a `fmtError`. -/
theorem claim4_status_error_unstructured :
    StreamedChat (.response 401 "invalid api key" none) =
      ⟨[], [.fmtError (APIError.errorText 401 "invalid api key")]⟩ ∧
    (∀ e ∈ (StreamedChat (.response 401 "invalid api key" none)).errors,
      ∃ msg, e = GoErr.fmtError msg) := by
  constructor
  · rfl
  · intro e he
    have hl : (StreamedChat (.response 401 "invalid api key" none)).errors =
        [.fmtError "skald API error (401): invalid api key"] := rfl
    rw [hl, List.mem_singleton] at he
    exact ⟨_, he⟩

/-- Witness for C4: the one delivered error is a plain formatted error. -/
theorem claim4_status_error_unstructured_witness :
    ∃ msg, GoErr.fmtError "skald API error (401): invalid api key" = GoErr.fmtError msg :=
  claim4_status_error_unstructured.2
    (GoErr.fmtError "skald API error (401): invalid api key") (List.Mem.head _)

/-- C3 counterexample: the payloads `\x7b\x7d` and `null` are both accepted by
the decoder, and the body `data: \x7b\x7d` publishes an event whose `Type` is
the empty string — the claimed invariant fails. -/
theorem claim3_counterexample :
    StreamedChat (.response 200 "data: \x7b\x7d" none) = ⟨[zeroEvent], []⟩ ∧
    decodeEventPayload "null" = some zeroEvent ∧
    ∃ e ∈ (StreamedChat (.response 200 "data: \x7b\x7d" none)).events, e.type = "" := by
  refine ⟨rfl, rfl, zeroEvent, ?_, rfl⟩
  exact List.Mem.head _

/-- Folding the decoder over `none` stays `none`. -/
theorem foldl_setEventField_none (ps : List (String × Json)) :
    ps.foldl (fun acc kv => acc.bind fun e => setEventField e kv.1 kv.2) none = none := by
  induction ps with
  | nil => rfl
  | cons kv ps ih => simpa [List.foldl_cons] using ih

/-- One field assignment changes `type` exactly when the key is `"type"` and
the value is a string. -/
theorem setEventField_type {st st' : ChatStreamEvent} {k : String} {v : Json}
    (h : setEventField st k v = some st') :
    st'.type = typeStep st.type k v := by
  unfold setEventField at h
  unfold typeStep
  split_ifs at h with h1 h2 h3 h4
  · rw [if_pos h1]
    cases v with
    | str s =>
      rw [Option.some.injEq] at h
      subst h
      rfl
    | null =>
      rw [Option.some.injEq] at h
      subst h
      rfl
    | bool b => simp at h
    | num lx => simp at h
    | arr es => simp at h
    | obj ms => simp at h
  · rw [if_neg h1]
    cases v with
    | str s =>
      rw [Option.some.injEq] at h
      subst h
      rfl
    | null =>
      rw [Option.some.injEq] at h
      subst h
      rfl
    | bool b => simp at h
    | num lx => simp at h
    | arr es => simp at h
    | obj ms => simp at h
  · rw [if_neg h1]
    cases v with
    | str s =>
      rw [Option.some.injEq] at h
      subst h
      rfl
    | null =>
      rw [Option.some.injEq] at h
      subst h
      rfl
    | bool b => simp at h
    | num lx => simp at h
    | arr es => simp at h
    | obj ms => simp at h
  · rw [if_neg h1]
    cases v with
    | obj rs =>
      rw [Option.map_eq_some'] at h
      rcases h with ⟨m, hm, hst⟩
      subst hst
      rfl
    | null =>
      rw [Option.some.injEq] at h
      subst h
      rfl
    | bool b => simp at h
    | num lx => simp at h
    | str s => simp at h
    | arr es => simp at h
  · rw [if_neg h1]
    rw [Option.some.injEq] at h
    subst h
    rfl

/-- Across the whole member fold, `type` is the last string bound to the key
`"type"`, starting from the initial event's `type`. -/
theorem decode_fold_type (ps : List (String × Json)) (st e : ChatStreamEvent)
    (h : ps.foldl (fun acc kv => acc.bind fun ev => setEventField ev kv.1 kv.2) (some st) =
      some e) :
    e.type = ps.foldl (fun acc kv => typeStep acc kv.1 kv.2) st.type := by
  induction ps generalizing st with
  | nil =>
    simp at h
    subst h
    rfl
  | cons kv ps ih =>
    rw [List.foldl_cons, Option.some_bind] at h
    cases hsf : setEventField st kv.1 kv.2 with
    | none =>
      rw [hsf, foldl_setEventField_none] at h
      exact absurd h (by simp)
    | some st' =>
      rw [hsf] at h
      rw [ih st' h, List.foldl_cons, setEventField_type hsf]

/-- C3 amended (weakening only the "never empty" guarantee the counterexample
refutes): a published event's `Type` is non-empty except when the accepted
payload never binds the `type` field to a string — it equals the last string
the payload binds to a key matching `type` (case-insensitively, as
`json.Unmarshal` matches field names), starting from the empty string.  In
particular the accepted payloads `\x7b\x7d` and `null` leave `Type` empty. -/
theorem claim3_amended_type_from_payload :
    (∀ (ps : List (String × Json)) (e : ChatStreamEvent),
      decodeChatStreamEvent (.obj ps) = some e → e.type = typeFold ps) ∧
    decodeChatStreamEvent .null = some zeroEvent ∧ zeroEvent.type = "" := by
  refine ⟨?_, rfl, rfl⟩
  intro ps e h
  unfold decodeChatStreamEvent at h
  exact decode_fold_type ps zeroEvent e h

/-- Witness for C3's amended theorem: the payload
`\x7b"type":"references"\x7d` decodes to an event whose `Type` is the fold of
its members, and so does `\x7b"Type":"done"\x7d` through the case-insensitive
field match (its fold is `"done"`, so such an event even stops the stream). -/
theorem claim3_amended_type_from_payload_witness :
    ChatStreamEvent.type ⟨"references", none, "", none⟩ =
      typeFold [("type", Json.str "references")] ∧
    ChatStreamEvent.type ⟨"done", none, "", none⟩ =
      typeFold [("Type", Json.str "done")] :=
  ⟨claim3_amended_type_from_payload.1 [("type", Json.str "references")]
    ⟨"references", none, "", none⟩ rfl,
   claim3_amended_type_from_payload.1 [("Type", Json.str "done")]
    ⟨"done", none, "", none⟩ rfl⟩

/-- Dropping leading slashes leaves no leading slash. -/
theorem slash_not_prefix_dropWhile (xs : List Char) :
    List.isPrefixOf ['/'] (xs.dropWhile (fun c => c = '/')) = false := by
  induction xs with
  | nil => rfl
  | cons x xs ih =>
    by_cases hx : x = '/'
    · simpa [List.dropWhile_cons, hx] using ih
    · rw [List.dropWhile_cons, if_neg (by simpa using hx)]
      show ('/' == x && List.isPrefixOf [] xs) = false
      rw [beq_eq_false_iff_ne.mpr (Ne.symm hx)]
      rfl

/-- `strings.TrimRight(u, "/")` never leaves a trailing slash. -/
theorem trimTrailingSlashes_no_slash (u : String) :
    hasSuffix "/" (trimTrailingSlashes u) = false := by
  show List.isSuffixOf "/".data (trimTrailingSlashes u).data = false
  unfold List.isSuffixOf
  have hd : (trimTrailingSlashes u).data =
      (u.data.reverse.dropWhile (fun c => c = '/')).reverse := rfl
  rw [hd, List.reverse_reverse]
  exact slash_not_prefix_dropWhile u.data.reverse

/-- C10: `NewClient` defaults the base URL when no argument (or an empty
string) is supplied, strips every trailing slash from a non-empty argument,
`doRequest` builds the request URL as exactly base URL ++ path when there are
no query parameters, and a trimmed base URL never ends in `/`, so a
caller-supplied trailing slash cannot produce a double slash at the seam. -/
theorem claim10_base_url :
    (∀ key : String, (NewClient key []).baseURL = defaultBaseURL) ∧
    (∀ (key : String) (rest : List String),
      (NewClient key ("" :: rest)).baseURL = defaultBaseURL) ∧
    (∀ (key u : String) (rest : List String), u ≠ "" →
      (NewClient key (u :: rest)).baseURL = trimTrailingSlashes u) ∧
    (∀ (c : ClientModel) (path : String), requestURL c path [] = c.baseURL ++ path) ∧
    (∀ u : String, hasSuffix "/" (trimTrailingSlashes u) = false) := by
  refine ⟨fun key => rfl, fun key rest => rfl, ?_, fun c path => ?_, trimTrailingSlashes_no_slash⟩
  · intro key u rest hu
    simp [NewClient, hu]
  · simp [requestURL]

/-- Witness for C10: a base URL with three trailing slashes is trimmed. -/
theorem claim10_base_url_witness :
    (NewClient "key" ["https://example.test///"]).baseURL =
      trimTrailingSlashes "https://example.test///" :=
  claim10_base_url.2.2.1 "key" "https://example.test///" [] (by decide)

/-! ### Association-list lemmas for the references round-trip -/

theorem alookup_mapInsert (k k₀ : String) (v : α) (m : List (String × α)) :
    alookup k (mapInsert k₀ v m) = if k₀ = k then some v else alookup k m := by
  induction m with
  | nil => rfl
  | cons p rest ih =>
    by_cases hp : p.1 = k₀
    · rw [mapInsert, if_pos hp]
      by_cases hk : k₀ = k
      · rw [alookup, if_pos hk, if_pos hk]
      · rw [alookup, if_neg hk, if_neg hk, alookup, if_neg (by rw [hp]; exact hk)]
    · rw [mapInsert, if_neg hp]
      by_cases hpk : p.1 = k
      · have hk : ¬ (k₀ = k) := fun h => hp (by rw [hpk, h])
        rw [alookup, if_pos hpk, if_neg hk, alookup, if_pos hpk]
      · rw [alookup, if_neg hpk, ih, alookup, if_neg hpk]

theorem mem_keys_mapInsert (k k₀ : String) (v : α) (m : List (String × α)) :
    k ∈ (mapInsert k₀ v m).map Prod.fst ↔ k = k₀ ∨ k ∈ m.map Prod.fst := by
  induction m with
  | nil => simp [mapInsert]
  | cons p rest ih =>
    by_cases hp : p.1 = k₀
    · rw [mapInsert, if_pos hp]
      simp [hp]
    · rw [mapInsert, if_neg hp]
      simp only [List.map_cons, List.mem_cons, ih]
      tauto

theorem nodup_keys_mapInsert (k₀ : String) (v : α) (m : List (String × α))
    (h : (m.map Prod.fst).Nodup) : ((mapInsert k₀ v m).map Prod.fst).Nodup := by
  induction m with
  | nil => simp [mapInsert]
  | cons p rest ih =>
    rw [List.map_cons, List.nodup_cons] at h
    by_cases hp : p.1 = k₀
    · rw [mapInsert, if_pos hp]
      rw [List.map_cons, List.nodup_cons]
      exact ⟨by rw [← hp]; exact h.1, h.2⟩
    · rw [mapInsert, if_neg hp]
      rw [List.map_cons, List.nodup_cons]
      refine ⟨?_, ih h.2⟩
      rw [mem_keys_mapInsert]
      rintro (hc | hc)
      · exact hp hc
      · exact h.1 hc

theorem alookup_append (k : String) (l₁ l₂ : List (String × α)) :
    alookup k (l₁ ++ l₂) =
      match alookup k l₁ with
      | some v => some v
      | none => alookup k l₂ := by
  induction l₁ with
  | nil => rfl
  | cons p rest ih =>
    by_cases hp : p.1 = k
    · rw [List.cons_append, alookup, if_pos hp, alookup, if_pos hp]
    · rw [List.cons_append, alookup, if_neg hp, alookup, if_neg hp, ih]

theorem objLookupLast_cons (k k₀ : String) (v₀ : Json) (ps : List (String × Json)) :
    objLookupLast ((k₀, v₀) :: ps) k =
      match objLookupLast ps k with
      | some v => some v
      | none => if k₀ = k then some v₀ else none := by
  unfold objLookupLast
  rw [List.reverse_cons, alookup_append]
  cases alookup k ps.reverse with
  | none => rfl
  | some v => rfl

theorem alookup_map_value (k : String) (f : α → β) (l : List (String × α)) :
    alookup k (l.map fun p => (p.1, f p.2)) = (alookup k l).map f := by
  induction l with
  | nil => rfl
  | cons p rest ih =>
    by_cases hp : p.1 = k
    · rw [List.map_cons, alookup, alookup, if_pos hp, if_pos hp, Option.map_some']
    · rw [List.map_cons, alookup, alookup, if_neg hp, if_neg hp, ih]

theorem keys_map_value (f : α → β) (l : List (String × α)) :
    (l.map fun p => (p.1, f p.2)).map Prod.fst = l.map Prod.fst := by
  rw [List.map_map]
  rfl

theorem insertSorted_perm (p : String × MemoReference) (l : List (String × MemoReference)) :
    (insertSorted p l).Perm (p :: l) := by
  induction l with
  | nil => exact List.Perm.refl _
  | cons q rest ih =>
    rw [insertSorted]
    by_cases hle : p.1 ≤ q.1
    · rw [if_pos hle]
    · rw [if_neg hle]
      exact (ih.cons q).trans (List.Perm.swap p q rest)

theorem sortByKey_perm (l : List (String × MemoReference)) : (sortByKey l).Perm l := by
  induction l with
  | nil => exact List.Perm.refl _
  | cons p rest ih =>
    exact (insertSorted_perm p (sortByKey rest)).trans (ih.cons p)

theorem alookup_perm {l₁ l₂ : List (String × α)} (h : l₁.Perm l₂)
    (hnd : (l₁.map Prod.fst).Nodup) (k : String) : alookup k l₁ = alookup k l₂ := by
  induction h with
  | nil => rfl
  | cons p h ih =>
    rw [List.map_cons, List.nodup_cons] at hnd
    by_cases hp : p.1 = k
    · rw [alookup, if_pos hp, alookup, if_pos hp]
    · rw [alookup, if_neg hp, alookup, if_neg hp, ih hnd.2]
  | swap p q rest =>
    rw [List.map_cons, List.map_cons, List.nodup_cons, List.nodup_cons] at hnd
    have hqp : ¬ (q.1 = p.1) := by
      intro h
      exact hnd.1 (by rw [← h]; exact List.mem_cons_self _ _)
    by_cases hq : q.1 = k
    · have hpk : ¬ (p.1 = k) := fun hc => hqp (hq.trans hc.symm)
      rw [alookup, if_pos hq, alookup, if_neg hpk, alookup, if_pos hq]
    · by_cases hp : p.1 = k
      · rw [alookup, if_neg hq, alookup, if_pos hp, alookup, if_pos hp]
      · rw [alookup, if_neg hq, alookup, if_neg hp, alookup, if_neg hp, alookup, if_neg hq]
  | trans h₁ h₂ ih₁ ih₂ =>
    rw [ih₁ hnd, ih₂ ((h₁.map Prod.fst).nodup_iff.mp hnd)]

/-- Re-encoding a decoded `MemoReference` is the identity. -/
theorem decode_encode_memoref (r : MemoReference) :
    decodeMemoReference (encodeMemoReference r) = some r := by
  cases r
  rfl

/-- Decoding a member list into a Go map, starting from `acc`: it succeeds
when every member value decodes, and the resulting map binds each key to the
decoded value of the last member with that key (falling back to `acc`), with
keys accumulated and key-uniqueness preserved. -/
theorem decodeRefsInto_spec (rs : List (String × Json)) (acc : References)
    (hall : ∀ p ∈ rs, (decodeMemoReference p.2).isSome = true) :
    ∃ m, decodeRefsInto acc rs = some m ∧
      (∀ k, alookup k m =
        match objLookupLast rs k with
        | some v => decodeMemoReference v
        | none => alookup k acc) ∧
      (∀ k, k ∈ m.map Prod.fst ↔ k ∈ rs.map Prod.fst ∨ k ∈ acc.map Prod.fst) ∧
      ((acc.map Prod.fst).Nodup → (m.map Prod.fst).Nodup) := by
  induction rs generalizing acc with
  | nil =>
    exact ⟨acc, rfl, fun k => rfl, fun k => by simp, id⟩
  | cons kv rs ih =>
    obtain ⟨k₀, v₀⟩ := kv
    have hv : (decodeMemoReference v₀).isSome = true :=
      hall (k₀, v₀) (List.mem_cons_self _ _)
    obtain ⟨r₀, hr⟩ := Option.isSome_iff_exists.mp hv
    have hstep : decodeRefsInto acc ((k₀, v₀) :: rs) =
        decodeRefsInto (mapInsert k₀ r₀ acc) rs := by
      unfold decodeRefsInto
      rw [List.foldl_cons, Option.some_bind, hr, Option.map_some']
    obtain ⟨m, hm, hlook, hkeys, hnd⟩ :=
      ih (mapInsert k₀ r₀ acc) (fun p hp => hall p (List.mem_cons_of_mem _ hp))
    refine ⟨m, by rw [hstep]; exact hm, fun k => ?_, fun k => ?_,
      fun hndacc => hnd (nodup_keys_mapInsert _ _ _ hndacc)⟩
    · rw [hlook k, objLookupLast_cons]
      cases objLookupLast rs k with
      | some v => rfl
      | none =>
        rw [alookup_mapInsert]
        by_cases hk : k₀ = k
        · simp only [if_pos hk, hr]
        · simp only [if_neg hk]
    · rw [hkeys k, mem_keys_mapInsert]
      simp only [List.map_cons, List.mem_cons]
      tauto

/-- C9: decoding a well-shaped references payload and re-encoding it
reproduces an equivalent mapping: the same citation-number keys, bound to the
same reference records. -/
theorem claim9_references_roundtrip (ps : List (String × Json))
    (hshape : ∀ p ∈ ps, (decodeMemoReference p.2).isSome = true) :
    ∃ m, decodeReferences (.obj ps) = some m ∧
      (∀ k, refLookup (encodeReferences m) k = refLookup (.obj ps) k) ∧
      (∀ k, k ∈ objKeys (encodeReferences m) ↔ k ∈ objKeys (.obj ps)) := by
  obtain ⟨m, hm, hlook, hkeys, hnd⟩ := decodeRefsInto_spec ps [] hshape
  have hndm : (m.map Prod.fst).Nodup := hnd (by simp)
  have hperm : ((sortByKey m).reverse).Perm m :=
    ((sortByKey m).reverse_perm).trans (sortByKey_perm m)
  have hndrev : (((sortByKey m).reverse).map Prod.fst).Nodup :=
    ((hperm.map Prod.fst).nodup_iff).mpr hndm
  refine ⟨m, hm, fun k => ?_, fun k => ?_⟩
  · have hL : refLookup (encodeReferences m) k = alookup k m := by
      show (objLookupLast ((sortByKey m).map fun p => (p.1, encodeMemoReference p.2)) k).bind
            decodeMemoReference = alookup k m
      unfold objLookupLast
      rw [← List.map_reverse, alookup_map_value, alookup_perm hperm hndrev k]
      cases h : alookup k m with
      | none => rfl
      | some r => simp [decode_encode_memoref]
    have hR : refLookup (.obj ps) k = alookup k m := by
      show (objLookupLast ps k).bind decodeMemoReference = alookup k m
      rw [hlook k]
      cases objLookupLast ps k with
      | none => rfl
      | some v => rfl
    rw [hL, hR]
  · show k ∈ ((sortByKey m).map fun p => (p.1, encodeMemoReference p.2)).map Prod.fst ↔
      k ∈ ps.map Prod.fst
    rw [keys_map_value]
    rw [((sortByKey_perm m).map Prod.fst).mem_iff]
    rw [hkeys k]
    simp

/-- Witness for C9: the payload from the specification,
`\x7b"1": \x7b"memo_uuid": "u", "memo_title": "t"\x7d\x7d`. -/
theorem claim9_references_roundtrip_witness :
    ∃ m, decodeReferences
        (.obj [("1", .obj [("memo_uuid", Json.str "u"), ("memo_title", Json.str "t")])]) =
        some m ∧
      (∀ k, refLookup (encodeReferences m) k =
        refLookup
          (.obj [("1", .obj [("memo_uuid", Json.str "u"), ("memo_title", Json.str "t")])]) k) ∧
      (∀ k, k ∈ objKeys (encodeReferences m) ↔
        k ∈ objKeys
          (.obj [("1", .obj [("memo_uuid", Json.str "u"), ("memo_title", Json.str "t")])])) :=
  claim9_references_roundtrip
    [("1", .obj [("memo_uuid", Json.str "u"), ("memo_title", Json.str "t")])]
    (by decide)

end Skald
